import Mathlib

/-!
Verification of the prob_lab distribution-fitting core.

The development shallowly embeds the fit-and-score engine of the
`prob_lab` package: the `FitResult` record (prob_lab/distributions/base.py),
the generic scipy-backed MLE fitter (prob_lab/distributions/scipy_wrappers.py),
the two extreme-value fitters (prob_lab/distributions/extreme_value.py),
the multi-model trial runner (prob_lab/fitting/mle.py), the name registry
(prob_lab/registry.py) and the numeric series prepared for the diagnostic
plots (prob_lab/visualize/plot.py).

Real numbers of the Python code are modelled as rationals.  The external
numeric library (scipy / numpy) is an explicit collaborator: its parameter
estimators, log-densities, densities, quantile functions and the natural
logarithm enter every embedded function as function-valued arguments, so
each theorem quantifies over the library's behaviour and asserts exactly
what the repository's own code computes from the library's answers.
-/

namespace ProbLab

/-- FitResult, the immutable record produced by every fitting path
(class `FitResult` in prob_lab/distributions/base.py). -/
structure FitResult where
  name : String
  params : List ℚ
  loc : ℚ
  scale : ℚ
  aic : ℚ
  bic : ℚ
  loglik : ℚ
  n : ℕ
deriving Repr

/-- Model of an external `scipy.stats` continuous-distribution object as
used by `ScipyDistribution`: `fitParams` is the library's `fit` routine
returning the tuple `(*shape args, loc, scale)`, split here into its three
components, and `logpdf` is the pointwise log-density
`logpdf(x, *args, loc=loc, scale=scale)`. -/
structure ScipyDist where
  fitParams : List ℚ → List ℚ × ℚ × ℚ
  logpdf : ℚ → List ℚ → ℚ → ℚ → ℚ

/-- Method `ScipyDistribution.fit` (prob_lab/distributions/scipy_wrappers.py
lines 12-20): estimate parameters with the library's `fit`, sum the pointwise
log-density over the sample, and score with AIC/BIC using
`k = len(arg) + 2`.  `log` models `np.log`. -/
def ScipyDistribution.fit (log : ℚ → ℚ) (d : ScipyDist) (name : String)
    (x : List ℚ) : FitResult :=
  let est := d.fitParams x
  let arg := est.1
  let loc := est.2.1
  let scale := est.2.2
  let loglik := (x.map (fun xi => d.logpdf xi arg loc scale)).sum
  let n := x.length
  let k : ℚ := (arg.length : ℚ) + 2
  { name := name, params := arg, loc := loc, scale := scale,
    aic := 2 * k - 2 * loglik, bic := k * log (n : ℚ) - 2 * loglik,
    loglik := loglik, n := n }

/-- Errors raised by the Python code: `AttributeError` from
`getattr(stats, dist_name)` in `ScipyDistribution.__init__`, and `KeyError`
from `Registry.get`; each carries the offending name (the `KeyError`
message also lists the available names). -/
inductive PyError where
  | attributeError (name : String)
  | keyError (name : String) (available : List String)
deriving Repr, DecidableEq

/-- Function `fit_scipy` (prob_lab/distributions/scipy_wrappers.py lines
26-31): construct a `ScipyDistribution` — whose `__init__` resolves the
name against the scipy namespace `stats`, raising `AttributeError` for an
unknown name — then run its `fit`.  `stats` models the `scipy.stats`
module namespace. -/
def fit_scipy (stats : String → Option ScipyDist) (log : ℚ → ℚ)
    (dist_name : String) (x : List ℚ) : Except PyError FitResult :=
  match stats dist_name with
  | none => .error (.attributeError dist_name)
  | some d => .ok (ScipyDistribution.fit log d dist_name x)

/-- Insertion into a Python `dict`: replace the value in place when the key
is already present, otherwise append the new binding at the end
(insertion-order semantics of `results[name] = ...`). -/
def dictInsert {β : Type} : List (String × β) → String → β → List (String × β)
  | [], key, v => [(key, v)]
  | (k', v') :: rest, key, v =>
    if k' = key then (key, v) :: rest else (k', v') :: dictInsert rest key v

/-- Function `try_many` (prob_lab/fitting/mle.py lines 8-15): for each
requested name attempt `fit_scipy`; a raised exception is caught and stored
as the value for that name instead of aborting the loop. -/
def try_many (stats : String → Option ScipyDist) (log : ℚ → ℚ) (x : List ℚ)
    (dist_names : List String) : List (String × Except PyError FitResult) :=
  dist_names.foldl
    (fun results name =>
      match fit_scipy stats log name x with
      | .ok fr => dictInsert results name (.ok fr)
      | .error e => dictInsert results name (.error e))
    []

/-- Registry of named items (class `Registry` in prob_lab/registry.py); the
Python `Dict[str, Callable]` is an insertion-ordered association list and
the stored callables are an abstract type. -/
structure Registry (α : Type) where
  items : List (String × α)

/-- Method `Registry.register` (prob_lab/registry.py lines 7-11): bind a
name to an item. -/
def Registry.register {α : Type} (r : Registry α) (name : String) (fn : α) :
    Registry α :=
  ⟨dictInsert r.items name fn⟩

/-- Method `Registry.get` (prob_lab/registry.py lines 12-15): raise
`KeyError` naming the missing key and the available keys when the name is
absent, otherwise return the stored item. -/
def Registry.get {α : Type} (r : Registry α) (name : String) :
    Except PyError α :=
  match r.items.lookup name with
  | none => .error (.keyError name (r.items.map Prod.fst))
  | some v => .ok v

/-- Maximum of a numpy array, `x.max()`; calling it on an empty array is a
Python error, modelled with an unreachable default. -/
def npMax (l : List ℚ) : ℚ := l.max?.getD 0

/-- Minimum of a numpy array, `x.min()`. -/
def npMin (l : List ℚ) : ℚ := l.min?.getD 0

/-- Number of blocks in `fit_block_maxima`:
`int(np.ceil(len(x)/block_size))`. -/
def blockCount (len block_size : ℕ) : ℕ :=
  ⌈(len : ℚ) / (block_size : ℚ)⌉₊

/-- Per-block maxima of `fit_block_maxima` (prob_lab/distributions/
extreme_value.py line 9): maxima of the consecutive slices
`x[i*block_size:(i+1)*block_size]` for `i in range(blocks)`. -/
def blockMaximaList (x : List ℚ) (block_size : ℕ) : List ℚ :=
  (List.range (blockCount x.length block_size)).map
    (fun i => npMax ((x.drop (i * block_size)).take block_size))

/-- Function `fit_block_maxima` (prob_lab/distributions/extreme_value.py
lines 7-16): fit a GEV to the per-block maxima and score with fixed
`k = 3`.  `genextremeFit` models `stats.genextreme.fit` (returning the
tuple `(c, loc, scale)`), `genextremeLogpdf` the pointwise
`stats.genextreme.logpdf`. -/
def fit_block_maxima (genextremeFit : List ℚ → ℚ × ℚ × ℚ)
    (genextremeLogpdf : ℚ → ℚ → ℚ → ℚ → ℚ) (log : ℚ → ℚ)
    (x : List ℚ) (block_size : ℕ) : FitResult :=
  let maxima := blockMaximaList x block_size
  let est := genextremeFit maxima
  let c := est.1
  let loc := est.2.1
  let scale := est.2.2
  let loglik := (maxima.map (fun m => genextremeLogpdf m c loc scale)).sum
  let n := maxima.length
  let k : ℚ := 3
  { name := "genextreme(block-maxima)", params := [c], loc := loc,
    scale := scale, aic := 2 * k - 2 * loglik,
    bic := k * log (n : ℚ) - 2 * loglik, loglik := loglik, n := n }

/-- Function `fit_gpd_threshold` (prob_lab/distributions/extreme_value.py
lines 18-26): keep the values strictly above the threshold, subtract the
threshold, fit a GPD with the location argument pinned to `0.0`
(`floc=0.0`), and score with the literal `2` that the source writes in
both the AIC and the BIC formula (its local `k = 2 + 1` is never used).
`genparetoFitFloc` models `stats.genpareto.fit(data, floc=...)`: the second
argument is the pinned location and the result is `(c, loc, scale)`. -/
def fit_gpd_threshold (genparetoFitFloc : List ℚ → ℚ → ℚ × ℚ × ℚ)
    (genparetoLogpdf : ℚ → ℚ → ℚ → ℚ → ℚ) (log : ℚ → ℚ)
    (x : List ℚ) (threshold : ℚ) : FitResult :=
  let exceed := (x.filter (fun v => threshold < v)).map (fun v => v - threshold)
  let est := genparetoFitFloc exceed 0
  let c := est.1
  let loc := est.2.1
  let scale := est.2.2
  let loglik := (exceed.map (fun e => genparetoLogpdf e c loc scale)).sum
  let n := exceed.length
  let k : ℚ := 2 + 1
  { name := "genpareto(excess over threshold)", params := [c], loc := 0,
    scale := scale, aic := 2 * 2 - 2 * loglik,
    bic := 2 * log (n : ℚ) - 2 * loglik, loglik := loglik, n := n }

/-- Value of a numpy float array entry: finite values are rationals, the
non-finite IEEE values (`nan`, `inf`, `-inf`) are separate constructors so
that the `np.isfinite` filtering of plot.py is expressible. -/
inductive FVal where
  | fin (q : ℚ)
  | nan
  | inf
  | ninf
deriving Repr, DecidableEq

/-- Test `np.isfinite` on a single entry. -/
def FVal.isFinite : FVal → Bool
  | .fin _ => true
  | _ => false

/-- Underlying rational of a finite entry. -/
def FVal.toFin : FVal → Option ℚ
  | .fin q => some q
  | _ => none

/-- Finite subsequence of a sample: `x[np.isfinite(x)]` (plot.py lines 10
and 32). -/
def finiteVals (x : List FVal) : List ℚ := x.filterMap FVal.toFin

/-- Ascending sort, `np.sort(x)`. -/
def sortAsc (l : List ℚ) : List ℚ := List.insertionSort (fun a b => a ≤ b) l

/-- Evenly spaced grid `np.linspace(a, b, num)` including both endpoints. -/
def linspace (a b : ℚ) (num : ℕ) : List ℚ :=
  (List.range num).map (fun i => a + (b - a) * (i : ℚ) / ((num : ℚ) - 1))

/-- Running sums `np.cumsum(l)`. -/
def cumsum (l : List ℚ) : List ℚ := (l.scanl (· + ·) 0).drop 1

/-- Linear-interpolation quantile `np.quantile(l, p)` (the default
`method='linear'`): with `s` the sorted data and `h = p*(n-1)`, interpolate
between the order statistics bracketing `h`. -/
def npQuantile (l : List ℚ) (p : ℚ) : ℚ :=
  let s := sortAsc l
  let h := p * ((s.length : ℚ) - 1)
  let i := (⌊h⌋).toNat
  let lower := s.getD i 0
  let upper := s.getD (i + 1) lower
  lower + (h - (i : ℚ)) * (upper - lower)

/-- Numeric series of `pdf_ecdf_overlay` (prob_lab/visualize/plot.py lines
8-20): after dropping non-finite entries, the ECDF step series pairs the
sorted sample with `i/N` for `i = 1..N`, and the overlay curve pairs a
400-point grid spanning `[min, max]` with the normalized cumulative sum of
the density evaluated on that grid.  `pdfF` models the family density
`dist.pdf(-, *params, loc=loc, scale=scale)`; figure construction and
rendering are outside the model. -/
def pdf_ecdf_overlay (pdfF : ℚ → ℚ) (x : List FVal) :
    List (ℚ × ℚ) × List (ℚ × ℚ) :=
  let xf := finiteVals x
  let xs := linspace (npMin xf) (npMax xf) 400
  let xs_sorted := sortAsc xf
  let ys := (List.range xf.length).map
    (fun (i : ℕ) => ((i : ℚ) + 1) / (xf.length : ℚ))
  let pdfv := xs.map pdfF
  let cdfSeries := (cumsum pdfv).map (fun c => c / pdfv.sum)
  (xs_sorted.zip ys, xs.zip cdfSeries)

/-- Numeric series of `qq_plot` (prob_lab/visualize/plot.py lines 30-38):
after dropping non-finite entries, pair the family quantiles with the
sample quantiles on the 99-point probability grid
`np.linspace(0.01, 0.99, 99)`.  `ppf` models the family quantile function
`dist.ppf(-, *params, loc=loc, scale=scale)`. -/
def qq_plot (ppf : ℚ → ℚ) (x : List FVal) : List (ℚ × ℚ) :=
  let xf := finiteVals x
  let q := linspace (1 / 100) (99 / 100) 99
  let theor := q.map ppf
  let samp := q.map (npQuantile xf)
  theor.zip samp

section Lemmas

/-- Ceiling division of naturals computed through the rationals, as
`int(np.ceil(len(x)/block_size))` does, equals the usual integer formula. -/
lemma blockCount_eq (a b : ℕ) (hb : 0 < b) :
    blockCount a b = (a + b - 1) / b := by
  unfold blockCount
  rcases Nat.eq_zero_or_pos a with ha | ha
  · subst ha
    have h1 : (b - 1) / b = 0 := Nat.div_eq_of_lt (by omega)
    simp [h1]
  · set d := (a + b - 1) / b with hd_def
    have hd : 0 < d := Nat.div_pos (by omega) hb
    have hbq : (0 : ℚ) < (b : ℚ) := by exact_mod_cast hb
    have hdm := Nat.div_add_mod (a + b - 1) b
    rw [← hd_def] at hdm
    have hmod : (a + b - 1) % b < b := Nat.mod_lt _ hb
    have hg1 : (d - 1) * b < a := by
      rw [Nat.sub_one_mul, Nat.mul_comm d b]
      generalize b * d = p at hdm ⊢
      omega
    have hg2 : a ≤ d * b := by
      rw [Nat.mul_comm d b]
      generalize b * d = p at hdm ⊢
      omega
    rw [Nat.ceil_eq_iff hd.ne']
    refine ⟨?_, ?_⟩
    · rw [lt_div_iff₀ hbq]
      exact_mod_cast hg1
    · rw [div_le_iff₀ hbq]
      exact_mod_cast hg2

/-- Every slice index below the block count starts strictly inside the
sample, so its block is non-empty. -/
lemma slice_ne_nil {x : List ℚ} {bs i : ℕ} (hbs : 0 < bs)
    (hi : i < blockCount x.length bs) :
    (x.drop (i * bs)).take bs ≠ [] := by
  rw [blockCount_eq _ _ hbs] at hi
  have h1 : (i + 1) * bs ≤ x.length + bs - 1 :=
    (Nat.le_div_iff_mul_le hbs).mp hi
  have h2 : i * bs < x.length := by
    have h3 : (i + 1) * bs = i * bs + bs := by ring
    omega
  intro hnil
  rcases List.take_eq_nil_iff.mp hnil with h | h
  · omega
  · rw [List.drop_eq_nil_iff] at h
    omega

/-- The consecutive slices `x[i*bs:(i+1)*bs]` for `i in range(blocks)`
concatenate back to the whole sample: the block decomposition is a
partition that keeps a short final block. -/
lemma slices_join (bs : ℕ) (hbs : 0 < bs) :
    ∀ (fuel : ℕ) (x : List ℚ), x.length ≤ fuel →
      ((List.range (blockCount x.length bs)).map
          (fun i => (x.drop (i * bs)).take bs)).flatten = x := by
  intro fuel
  induction fuel with
  | zero =>
    intro x hx
    have hnil : x = [] := by
      cases x with
      | nil => rfl
      | cons a t => simp at hx
    subst hnil
    rw [blockCount_eq _ _ hbs]
    simp [Nat.div_eq_of_lt (by omega : 0 + bs - 1 < bs)]
  | succ n ih =>
    intro x hx
    cases x with
    | nil =>
      rw [blockCount_eq _ _ hbs]
      simp [Nat.div_eq_of_lt (by omega : 0 + bs - 1 < bs)]
    | cons a t =>
      set y := a :: t with hy
      have hlen : 0 < y.length := by simp [hy]
      have hsucc : blockCount y.length bs = blockCount (y.drop bs).length bs + 1 := by
        rw [blockCount_eq _ _ hbs, blockCount_eq _ _ hbs, List.length_drop]
        rcases le_or_lt y.length bs with h | h
        · have h1 : y.length - bs = 0 := by omega
          rw [h1]
          have h2 : (0 + bs - 1) / bs = 0 := Nat.div_eq_of_lt (by omega)
          have h3 : (y.length + bs - 1) / bs = 1 :=
            Nat.div_eq_of_lt_le (by omega) (by omega)
          omega
        · have h4 : y.length + bs - 1 = (y.length - bs + bs - 1) + bs := by omega
          rw [h4, Nat.add_div_right _ hbs]
      rw [hsucc, List.range_succ_eq_map, List.map_cons, List.flatten_cons,
        List.map_map]
      have hslice : ∀ i : ℕ,
          ((y.drop (Nat.succ i * bs)).take bs)
            = (((y.drop bs).drop (i * bs)).take bs) := by
        intro i
        rw [List.drop_drop]
        rw [Nat.succ_mul, Nat.add_comm]
      have hmaps :
          (List.range (blockCount (y.drop bs).length bs)).map
              ((fun i => (y.drop (i * bs)).take bs) ∘ Nat.succ)
            = (List.range (blockCount (y.drop bs).length bs)).map
              (fun i => ((y.drop bs).drop (i * bs)).take bs) := by
        apply List.map_congr_left
        intro i _
        exact hslice i
      rw [hmaps, ih (y.drop bs) (by simp [hy] at hx ⊢; omega)]
      simp [List.take_append_drop bs y]

end Lemmas

/-- C1: every `FitResult` built by the three fitting paths satisfies
`aic = 2k - 2*loglik` and `bic = k*log n - 2*loglik` with the per-fitter
effective parameter count: `k = len(params) + 2` for the generic MLE
fitter, the fixed `k = 3` for the block-maxima GEV fitter, and the fixed
`k = 2` in both formulas for the peaks-over-threshold GPD fitter. -/
theorem aic_bic_consistency (log : ℚ → ℚ) (d : ScipyDist) (nm : String)
    (x : List ℚ) (gevFit : List ℚ → ℚ × ℚ × ℚ)
    (gevLogpdf : ℚ → ℚ → ℚ → ℚ → ℚ) (bs : ℕ)
    (gpdFit : List ℚ → ℚ → ℚ × ℚ × ℚ) (gpdLogpdf : ℚ → ℚ → ℚ → ℚ → ℚ)
    (thr : ℚ) :
    ((ScipyDistribution.fit log d nm x).aic
        = 2 * (((ScipyDistribution.fit log d nm x).params.length : ℚ) + 2)
          - 2 * (ScipyDistribution.fit log d nm x).loglik
      ∧ (ScipyDistribution.fit log d nm x).bic
        = (((ScipyDistribution.fit log d nm x).params.length : ℚ) + 2)
            * log (((ScipyDistribution.fit log d nm x).n : ℚ))
          - 2 * (ScipyDistribution.fit log d nm x).loglik)
    ∧ ((fit_block_maxima gevFit gevLogpdf log x bs).aic
        = 2 * 3 - 2 * (fit_block_maxima gevFit gevLogpdf log x bs).loglik
      ∧ (fit_block_maxima gevFit gevLogpdf log x bs).bic
        = 3 * log (((fit_block_maxima gevFit gevLogpdf log x bs).n : ℚ))
          - 2 * (fit_block_maxima gevFit gevLogpdf log x bs).loglik)
    ∧ ((fit_gpd_threshold gpdFit gpdLogpdf log x thr).aic
        = 2 * 2 - 2 * (fit_gpd_threshold gpdFit gpdLogpdf log x thr).loglik
      ∧ (fit_gpd_threshold gpdFit gpdLogpdf log x thr).bic
        = 2 * log (((fit_gpd_threshold gpdFit gpdLogpdf log x thr).n : ℚ))
          - 2 * (fit_gpd_threshold gpdFit gpdLogpdf log x thr).loglik) :=
  ⟨⟨rfl, rfl⟩, ⟨rfl, rfl⟩, ⟨rfl, rfl⟩⟩

/-- Scenario sample `[1, 2, ..., 100]`. -/
def sample100 : List ℚ :=
  [1, 2, 3, 4, 5, 6, 7, 8, 9, 10, 11, 12, 13, 14, 15, 16, 17, 18, 19, 20,
   21, 22, 23, 24, 25, 26, 27, 28, 29, 30, 31, 32, 33, 34, 35, 36, 37, 38,
   39, 40, 41, 42, 43, 44, 45, 46, 47, 48, 49, 50, 51, 52, 53, 54, 55, 56,
   57, 58, 59, 60, 61, 62, 63, 64, 65, 66, 67, 68, 69, 70, 71, 72, 73, 74,
   75, 76, 77, 78, 79, 80, 81, 82, 83, 84, 85, 86, 87, 88, 89, 90, 91, 92,
   93, 94, 95, 96, 97, 98, 99, 100]

/-- Placeholder external estimator used to instantiate theorems at concrete
inputs: returns no shape parameters, location `0`, scale `1`. -/
def dummyDist : ScipyDist := ⟨fun _ => ([], 0, 1), fun _ _ _ _ => 0⟩

/-- Concrete model of `np.log` for instantiations (the identity; the
theorems hold for every such function). -/
def idLog : ℚ → ℚ := fun q => q

/-- Concrete GEV/GPD-style estimator returning `(shape, loc, scale)` =
`(0, 0, 1)` on any data. -/
def constFit3 : List ℚ → ℚ × ℚ × ℚ := fun _ => (0, 0, 1)

/-- Concrete fixed-location GPD estimator: echoes the pinned location it
is given and returns shape `7`, scale `2`. -/
def echoFlocFit : List ℚ → ℚ → ℚ × ℚ × ℚ := fun _ floc => (7, floc, 2)

/-- Concrete pointwise log-density returning `0` everywhere. -/
def zeroLogpdf : ℚ → ℚ → ℚ → ℚ → ℚ := fun _ _ _ _ => 0

/-- C2: for every non-empty sample and positive block size,
`fit_block_maxima` partitions the sample into consecutive blocks of the
given size whose concatenation is the whole sample (the last block may be
short but is never dropped and is non-empty), hands the per-block maxima
to the GEV estimator, and reports `n = ceil(len(sample)/blockSize)`; on
the sample `[1..100]` with block size `10` the maxima are
`[10, 20, ..., 100]` and `n = 10`. -/
theorem block_maxima_partition (gevFit : List ℚ → ℚ × ℚ × ℚ)
    (gevLogpdf : ℚ → ℚ → ℚ → ℚ → ℚ) (log : ℚ → ℚ) (x : List ℚ) (bs : ℕ)
    (hx : x ≠ []) (hbs : 0 < bs) :
    ((List.range (blockCount x.length bs)).map
        (fun i => (x.drop (i * bs)).take bs)).flatten = x
    ∧ (∀ i, i < blockCount x.length bs → (x.drop (i * bs)).take bs ≠ [])
    ∧ (fit_block_maxima gevFit gevLogpdf log x bs).params
        = [(gevFit (blockMaximaList x bs)).1]
    ∧ (fit_block_maxima gevFit gevLogpdf log x bs).n
        = ⌈(x.length : ℚ) / (bs : ℚ)⌉₊
    ∧ blockMaximaList sample100 10
        = [10, 20, 30, 40, 50, 60, 70, 80, 90, 100]
    ∧ (fit_block_maxima gevFit gevLogpdf log sample100 10).n = 10 := by
  have hsc : blockMaximaList sample100 10
      = [10, 20, 30, 40, 50, 60, 70, 80, 90, 100] := by
    have hbc : blockCount sample100.length 10 = 10 := by
      rw [blockCount_eq _ _ (by norm_num)]
      decide
    rw [blockMaximaList, hbc]
    decide
  refine ⟨?_, ?_, rfl, ?_, hsc, ?_⟩
  · exact slices_join bs hbs x.length x le_rfl
  · intro i hi
    exact slice_ne_nil hbs hi
  · simp [fit_block_maxima, blockMaximaList, blockCount]
  · simp [fit_block_maxima, hsc]

/-- Witness for C2 at the scenario input: the hypotheses hold for
`sample100` and block size `10`, and the fitter then reports `n = 10`. -/
theorem block_maxima_partition_witness :
    sample100 ≠ [] ∧ 0 < 10
    ∧ (fit_block_maxima constFit3 zeroLogpdf idLog sample100 10).n = 10 :=
  ⟨by decide, by decide,
    (block_maxima_partition constFit3 zeroLogpdf idLog sample100 10
      (by decide) (by decide)).2.2.2.2.2⟩

/-- C3: whenever some sample value strictly exceeds the threshold,
`fit_gpd_threshold` fits the exceedances (values above the threshold,
shifted down by it) through the fixed-location estimator with the pinned
location `0.0`, and the returned result has `loc = 0` and `n` equal to the
number of values strictly above the threshold. -/
theorem pot_loc_fixed (gpdFit : List ℚ → ℚ → ℚ × ℚ × ℚ)
    (gpdLogpdf : ℚ → ℚ → ℚ → ℚ → ℚ) (log : ℚ → ℚ) (x : List ℚ) (thr : ℚ)
    (hx : ∃ v ∈ x, thr < v) :
    (fit_gpd_threshold gpdFit gpdLogpdf log x thr).loc = 0
    ∧ (fit_gpd_threshold gpdFit gpdLogpdf log x thr).n
        = x.countP (fun v => thr < v)
    ∧ 0 < (fit_gpd_threshold gpdFit gpdLogpdf log x thr).n
    ∧ (fit_gpd_threshold gpdFit gpdLogpdf log x thr).params
        = [(gpdFit ((x.filter (fun v => thr < v)).map (fun v => v - thr)) 0).1]
    ∧ (fit_gpd_threshold gpdFit gpdLogpdf log x thr).scale
        = (gpdFit ((x.filter (fun v => thr < v)).map (fun v => v - thr)) 0).2.2 := by
  refine ⟨rfl, ?_, ?_, rfl, rfl⟩
  · simp [fit_gpd_threshold, List.countP_eq_length_filter]
  · obtain ⟨v, hv, hvt⟩ := hx
    have hmem : v ∈ x.filter (fun v => thr < v) :=
      List.mem_filter.mpr ⟨hv, by simpa using hvt⟩
    have hpos : 0 < (x.filter (fun v => thr < v)).length :=
      List.length_pos.mpr (fun hnil => by simp [hnil] at hmem)
    simpa [fit_gpd_threshold] using hpos

/-- Witness for C3: on sample `[1, 6]` with threshold `5` the hypothesis
holds and the fitted result keeps `loc = 0` with `n` the exceedance
count `1`. -/
theorem pot_loc_fixed_witness :
    (∃ v ∈ ([1, 6] : List ℚ), (5 : ℚ) < v)
    ∧ ((fit_gpd_threshold echoFlocFit zeroLogpdf idLog [1, 6] 5).loc = 0
      ∧ (fit_gpd_threshold echoFlocFit zeroLogpdf idLog [1, 6] 5).n
          = ([1, 6] : List ℚ).countP (fun v => (5 : ℚ) < v)
      ∧ 0 < (fit_gpd_threshold echoFlocFit zeroLogpdf idLog [1, 6] 5).n
      ∧ (fit_gpd_threshold echoFlocFit zeroLogpdf idLog [1, 6] 5).params
          = [(echoFlocFit ((([1, 6] : List ℚ).filter
              (fun v => (5 : ℚ) < v)).map (fun v => v - 5)) 0).1]
      ∧ (fit_gpd_threshold echoFlocFit zeroLogpdf idLog [1, 6] 5).scale
          = (echoFlocFit ((([1, 6] : List ℚ).filter
              (fun v => (5 : ℚ) < v)).map (fun v => v - 5)) 0).2.2) :=
  ⟨by decide, pot_loc_fixed echoFlocFit zeroLogpdf idLog [1, 6] 5 (by decide)⟩

/-- An insertion with a fresh key appends the binding at the end of the
dictionary. -/
lemma dictInsert_not_mem {β : Type} (l : List (String × β)) (key : String)
    (v : β) (h : key ∉ l.map Prod.fst) :
    dictInsert l key v = l ++ [(key, v)] := by
  induction l with
  | nil => rfl
  | cons p rest ih =>
    obtain ⟨k', v'⟩ := p
    simp only [List.map_cons, List.mem_cons, not_or] at h
    rw [dictInsert, if_neg (fun he => h.1 he.symm), ih h.2,
      List.cons_append]

/-- The `try_many` loop over fresh, pairwise-distinct names appends one
entry per name, each holding that name's own independent fit outcome. -/
lemma try_many_loop (stats : String → Option ScipyDist) (log : ℚ → ℚ)
    (x : List ℚ) :
    ∀ (names : List String) (acc : List (String × Except PyError FitResult)),
      names.Nodup → (∀ nm ∈ names, nm ∉ acc.map Prod.fst) →
      names.foldl
        (fun results name =>
          match fit_scipy stats log name x with
          | .ok fr => dictInsert results name (.ok fr)
          | .error e => dictInsert results name (.error e))
        acc
      = acc ++ names.map (fun nm => (nm, fit_scipy stats log nm x)) := by
  intro names
  induction names with
  | nil =>
    intro acc _ _
    simp
  | cons nm rest ih =>
    intro acc hnodup hdisj
    rw [List.foldl_cons]
    have hstep : (match fit_scipy stats log nm x with
        | .ok fr => dictInsert acc nm (.ok fr)
        | .error e => dictInsert acc nm (.error e))
        = acc ++ [(nm, fit_scipy stats log nm x)] := by
      cases hfs : fit_scipy stats log nm x with
      | ok fr =>
        show dictInsert acc nm (Except.ok fr) = acc ++ [(nm, Except.ok fr)]
        rw [dictInsert_not_mem _ _ _ (hdisj nm (by simp))]
      | error e =>
        show dictInsert acc nm (Except.error e) = acc ++ [(nm, Except.error e)]
        rw [dictInsert_not_mem _ _ _ (hdisj nm (by simp))]
    rw [hstep,
      ih (acc ++ [(nm, fit_scipy stats log nm x)]) (List.Nodup.of_cons hnodup)
        (by
          intro nm' hnm'
          simp only [List.map_append, List.mem_append, not_or]
          refine ⟨hdisj nm' (by simp [hnm']), ?_⟩
          simp only [List.map_cons, List.map_nil, List.mem_singleton]
          rintro rfl
          exact (List.nodup_cons.mp hnodup).1 hnm'),
      List.append_assoc]
    simp

/-- C4: on pairwise-distinct requested names, `try_many` returns exactly
one entry per requested name, in request order, and the entry for each
name is that name's own `fit_scipy` outcome — a `FitResult` on success,
the caught original error on failure — so one name's failure cannot
disturb any other attempt. -/
theorem try_many_total (stats : String → Option ScipyDist) (log : ℚ → ℚ)
    (x : List ℚ) (dist_names : List String) (h : dist_names.Nodup) :
    try_many stats log x dist_names
      = dist_names.map (fun nm => (nm, fit_scipy stats log nm x)) := by
  unfold try_many
  rw [try_many_loop stats log x dist_names [] h (by simp)]
  simp

/-- Namespace model for witnesses: `scipy.stats` exposing `expon` and
`weibull_min` only. -/
def statsDemo : String → Option ScipyDist := fun nm =>
  if nm = "expon" then some dummyDist
  else if nm = "weibull_min" then some dummyDist
  else none

/-- Witness for C4 on Scenario D's name list: three pairwise-distinct
names, the third unknown, produce exactly three entries, the third being
the stored `AttributeError`. -/
theorem try_many_total_witness :
    (["expon", "weibull_min", "bogus_dist"].Nodup)
    ∧ try_many statsDemo idLog [1, 2, 3] ["expon", "weibull_min", "bogus_dist"]
        = ["expon", "weibull_min", "bogus_dist"].map
            (fun nm => (nm, fit_scipy statsDemo idLog nm [1, 2, 3])) :=
  ⟨by decide, try_many_total statsDemo idLog [1, 2, 3] _ (by decide)⟩

/-- Adversarial external estimator returning the invalid scale `-1`,
exercising the absence of any scale validation in the fitters. -/
def negScaleDist : ScipyDist := ⟨fun _ => ([], 0, -1), fun _ _ _ _ => 0⟩

/-- Adversarial external estimator returning the degenerate scale `0`. -/
def zeroScaleDist : ScipyDist := ⟨fun _ => ([], 0, 0), fun _ _ _ _ => 0⟩

/-- C5 (violated by the code): no fitting path validates the estimated
scale — each fitter copies the external estimator's scale into the
returned `FitResult` unchecked, so an estimator answer with
`scale = -1` is returned as a success with a non-positive scale by the
MLE path, the block-maxima path and the POT path alike. -/
theorem scale_not_validated :
    (ScipyDistribution.fit idLog negScaleDist "expon" [1, 2, 3]).scale = -1
    ∧ ¬(0 < (ScipyDistribution.fit idLog negScaleDist "expon" [1, 2, 3]).scale)
    ∧ (fit_block_maxima (fun _ => (0, 0, -1)) zeroLogpdf idLog
        sample100 10).scale = -1
    ∧ (fit_gpd_threshold (fun _ floc => (0, floc, -1)) zeroLogpdf idLog
        [1, 6] 5).scale = -1 := by
  refine ⟨rfl, ?_, rfl, rfl⟩
  decide

/-- C6 (violated by the code): `ScipyDistribution.fit` does compute the
log-likelihood as the sum of the pointwise log-density over the sample,
but it performs no degeneracy check whatsoever — with an estimator
answering the invalid scale `0` it still returns a populated `FitResult`
instead of reporting a `DegenerateFit` error (no such error exists in the
code). -/
theorem degenerate_fit_not_reported :
    (∀ (log : ℚ → ℚ) (d : ScipyDist) (nm : String) (x : List ℚ),
      (ScipyDistribution.fit log d nm x).loglik
        = (x.map (fun xi => d.logpdf xi (d.fitParams x).1 (d.fitParams x).2.1
            (d.fitParams x).2.2)).sum)
    ∧ (ScipyDistribution.fit idLog zeroScaleDist "gamma" [1, 2]).scale = 0
    ∧ (ScipyDistribution.fit idLog zeroScaleDist "gamma" [1, 2]).name = "gamma"
    ∧ (ScipyDistribution.fit idLog zeroScaleDist "gamma" [1, 2]).n = 2 :=
  ⟨fun _ _ _ _ => rfl, rfl, rfl, rfl⟩

/-- C7 (violated by the code): when no sample value exceeds the threshold,
`fit_gpd_threshold` performs no emptiness check: it hands the empty
exceedance list to the external estimator and still builds an ordinary
`FitResult` with `n = 0` — there is no `EmptyExceedanceSet` error anywhere
in the code. -/
theorem empty_exceedance_not_rejected :
    (∀ v ∈ ([1] : List ℚ), ¬((5 : ℚ) < v))
    ∧ (fit_gpd_threshold echoFlocFit zeroLogpdf idLog [1] 5).n = 0
    ∧ (fit_gpd_threshold echoFlocFit zeroLogpdf idLog [1] 5).name
        = "genpareto(excess over threshold)"
    ∧ (fit_gpd_threshold echoFlocFit zeroLogpdf idLog [1] 5).loc = 0 := by
  refine ⟨by decide, ?_, rfl, rfl⟩
  decide

/-- C8: `Registry.get` fails on a name outside the registry with a
`KeyError` carrying the offending name (and the available names) and
returns the stored handle for a registered name; likewise resolving a
distribution name against the scipy namespace fails with an
`AttributeError` carrying the offending name for an unknown name, and
yields a usable fitting handle for a known one. -/
theorem unknown_distribution_lookup {α : Type} (r : Registry α) (nm : String)
    (stats : String → Option ScipyDist) (log : ℚ → ℚ) (x : List ℚ) :
    (r.items.lookup nm = none →
      r.get nm = .error (.keyError nm (r.items.map Prod.fst)))
    ∧ (∀ v, r.items.lookup nm = some v → r.get nm = .ok v)
    ∧ (stats nm = none →
      fit_scipy stats log nm x = .error (.attributeError nm))
    ∧ (∀ d, stats nm = some d →
      fit_scipy stats log nm x = .ok (ScipyDistribution.fit log d nm x)) := by
  refine ⟨?_, ?_, ?_, ?_⟩
  · intro h
    unfold Registry.get
    rw [h]
  · intro v h
    unfold Registry.get
    rw [h]
  · intro h
    unfold fit_scipy
    rw [h]
  · intro d h
    unfold fit_scipy
    rw [h]

/-- Witness for C8 on a one-entry registry and a one-name namespace: the
unknown name "bogus" produces the name-carrying errors, the known names
resolve. -/
theorem unknown_distribution_lookup_witness :
    ((Registry.mk [("expon", 1)] : Registry ℕ).get "bogus"
        = .error (.keyError "bogus" ["expon"]))
    ∧ ((Registry.mk [("expon", 1)] : Registry ℕ).get "expon" = .ok 1)
    ∧ (fit_scipy (fun _ => none) idLog "bogus" [1]
        = .error (.attributeError "bogus"))
    ∧ (fit_scipy statsDemo idLog "expon" [1]
        = .ok (ScipyDistribution.fit idLog dummyDist "expon" [1])) :=
  ⟨(unknown_distribution_lookup (Registry.mk [("expon", 1)]) "bogus"
      (fun _ => none) idLog [1]).1 rfl,
   (unknown_distribution_lookup (Registry.mk [("expon", 1)]) "expon"
      (fun _ => none) idLog [1]).2.1 1 rfl,
   (unknown_distribution_lookup (Registry.mk ([] : List (String × ℕ))) "bogus"
      (fun _ => none) idLog [1]).2.2.1 rfl,
   (unknown_distribution_lookup (Registry.mk ([] : List (String × ℕ))) "expon"
      statsDemo idLog [1]).2.2.2 dummyDist rfl⟩

/-- C9: for a non-empty all-finite sample, the ECDF series of
`pdf_ecdf_overlay` pairs the ascending sort of the sample (a sorted
permutation of it, so its i-th entry is the i-th smallest value) with the
values `i/N` for `i = 1..N`; hence the series of ECDF values is
non-decreasing and its final value is `1`. -/
theorem ecdf_series_props (pdfF : ℚ → ℚ) (x : List FVal)
    (hne : x ≠ []) (hfin : ∀ v ∈ x, v.isFinite = true) :
    ((pdf_ecdf_overlay pdfF x).1.map Prod.fst = sortAsc (finiteVals x))
    ∧ (sortAsc (finiteVals x)).Sorted (· ≤ ·)
    ∧ (sortAsc (finiteVals x)).Perm (finiteVals x)
    ∧ ((pdf_ecdf_overlay pdfF x).1.map Prod.snd
        = (List.range (finiteVals x).length).map
            (fun (i : ℕ) => ((i : ℚ) + 1) / ((finiteVals x).length : ℚ)))
    ∧ ((pdf_ecdf_overlay pdfF x).1.map Prod.snd).Sorted (· ≤ ·)
    ∧ ((pdf_ecdf_overlay pdfF x).1.map Prod.snd).getLast? = some 1 := by
  have hxf : finiteVals x ≠ [] := by
    cases x with
    | nil => exact absurd rfl hne
    | cons v t =>
      have hv := hfin v (by simp)
      cases v with
      | fin q => simp [finiteVals, FVal.toFin]
      | nan => simp [FVal.isFinite] at hv
      | inf => simp [FVal.isFinite] at hv
      | ninf => simp [FVal.isFinite] at hv
  have hN : 0 < (finiteVals x).length := List.length_pos.mpr hxf
  have hNq : (0 : ℚ) < ((finiteVals x).length : ℚ) := by exact_mod_cast hN
  have hlen_sort : (sortAsc (finiteVals x)).length = (finiteVals x).length :=
    (List.perm_insertionSort _ (finiteVals x)).length_eq
  have hlen_ys : (((List.range (finiteVals x).length).map
      (fun (i : ℕ) => ((i : ℚ) + 1) / ((finiteVals x).length : ℚ)))).length
      = (finiteVals x).length := by
    simp
  have hfst : (pdf_ecdf_overlay pdfF x).1.map Prod.fst
      = sortAsc (finiteVals x) := by
    simp only [pdf_ecdf_overlay]
    exact List.map_fst_zip _ _ (by rw [hlen_sort, hlen_ys])
  have hsnd : (pdf_ecdf_overlay pdfF x).1.map Prod.snd
      = (List.range (finiteVals x).length).map
          (fun (i : ℕ) => ((i : ℚ) + 1) / ((finiteVals x).length : ℚ)) := by
    simp only [pdf_ecdf_overlay]
    exact List.map_snd_zip _ _ (by rw [hlen_sort, hlen_ys])
  have hys_sorted : ((List.range (finiteVals x).length).map
      (fun (i : ℕ) => ((i : ℚ) + 1) / ((finiteVals x).length : ℚ))).Sorted (· ≤ ·) := by
    refine List.Pairwise.map _ ?_ (List.pairwise_lt_range _)
    intro a b hab
    have hcast : ((a : ℚ) + 1) ≤ ((b : ℚ) + 1) := by
      have : (a : ℚ) ≤ (b : ℚ) := by exact_mod_cast hab.le
      linarith
    exact div_le_div_of_nonneg_right hcast hNq.le
  have hys_last : (((List.range (finiteVals x).length).map
      (fun (i : ℕ) => ((i : ℚ) + 1) / ((finiteVals x).length : ℚ)))).getLast?
      = some 1 := by
    rw [List.getLast?_eq_getElem?, hlen_ys, List.getElem?_map,
      List.getElem?_range (by omega), Option.map_some']
    congr 1
    rw [Nat.cast_sub hN, Nat.cast_one]
    have harith : (((finiteVals x).length : ℚ) - 1 + 1)
        = ((finiteVals x).length : ℚ) := by ring
    rw [harith, div_self hNq.ne']
  exact ⟨hfst, List.sorted_insertionSort _ _, List.perm_insertionSort _ _,
    hsnd, hsnd ▸ hys_sorted, hsnd ▸ hys_last⟩

/-- Witness for C9 on the sample `[3, 1, 2]`: both hypotheses hold and the
final ECDF value is `1`. -/
theorem ecdf_series_props_witness :
    ([FVal.fin 3, FVal.fin 1, FVal.fin 2] ≠ [])
    ∧ (∀ v ∈ [FVal.fin 3, FVal.fin 1, FVal.fin 2], v.isFinite = true)
    ∧ ((pdf_ecdf_overlay idLog [FVal.fin 3, FVal.fin 1, FVal.fin 2]).1.map
        Prod.snd).getLast? = some 1 :=
  ⟨by decide, by decide,
   (ecdf_series_props idLog [FVal.fin 3, FVal.fin 1, FVal.fin 2]
      (by decide) (by decide)).2.2.2.2.2⟩

/-- Filtering a sample to its finite entries first does not change its
finite rational values. -/
lemma finiteVals_filter (x : List FVal) :
    finiteVals (x.filter FVal.isFinite) = finiteVals x := by
  induction x with
  | nil => rfl
  | cons v t ih =>
    cases v <;>
      simp [finiteVals, List.filter_cons, FVal.isFinite, FVal.toFin] at ih ⊢ <;>
      simp [ih]

/-- C10: both diagnostic series producers first drop all non-finite
entries; for any sample with at least one finite value the series they
produce coincide with the series produced from the finite subsequence of
the sample alone. -/
theorem nonfinite_entries_dropped (pdfF ppf : ℚ → ℚ) (x : List FVal)
    (hx : ∃ v ∈ x, v.isFinite = true) :
    pdf_ecdf_overlay pdfF x = pdf_ecdf_overlay pdfF (x.filter FVal.isFinite)
    ∧ qq_plot ppf x = qq_plot ppf (x.filter FVal.isFinite) := by
  constructor <;> simp only [pdf_ecdf_overlay, qq_plot, finiteVals_filter]

/-- Witness for C10 on the sample `[1, nan]`: the hypothesis holds and
both series are unchanged by pre-filtering. -/
theorem nonfinite_entries_dropped_witness :
    (∃ v ∈ [FVal.fin 1, FVal.nan], v.isFinite = true)
    ∧ pdf_ecdf_overlay idLog [FVal.fin 1, FVal.nan]
        = pdf_ecdf_overlay idLog
            ([FVal.fin 1, FVal.nan].filter FVal.isFinite)
    ∧ qq_plot idLog [FVal.fin 1, FVal.nan]
        = qq_plot idLog ([FVal.fin 1, FVal.nan].filter FVal.isFinite) :=
  ⟨by decide,
   (nonfinite_entries_dropped idLog idLog [FVal.fin 1, FVal.nan]
      ⟨FVal.fin 1, by decide⟩).1,
   (nonfinite_entries_dropped idLog idLog [FVal.fin 1, FVal.nan]
      ⟨FVal.fin 1, by decide⟩).2⟩

end ProbLab
